import Mathlib

/-!
Verification of the coordinate-mapper component of the NI-edu week-1 MRI
notebook: the voxel-index to physical-coordinate affine transform, its inverse
direction, shape/error handling, and the array-slicing scenarios the notebook
exercises.  Real arithmetic is embedded exactly as rational arithmetic.
-/

open Matrix

/-- The homogeneous 4-vector `(i, j, k, 1)` built from a voxel coordinate,
as in the notebook cell `np.array([69, 119, 109, 1])`. -/
def homogVec (i j k : ℚ) : Fin 4 → ℚ := ![i, j, k, 1]

/-- Divide the first three components of a 4-vector `(x', y', z', w)` by its
homogeneous term `w`, returning the physical coordinate `(x, y, z)`. -/
def homogenize (v : Fin 4 → ℚ) : ℚ × ℚ × ℚ :=
  (v 0 / v 3, v 1 / v 3, v 2 / v 3)

/-- Modelled from the spec: `voxel_to_physical(affine, i, j, k)` (the named
operation is absent from the notebook source, which only shows the raw product
`A @ np.array([i, j, k, 1])`): build the 4-vector `(i, j, k, 1)`, compute the
matrix-vector product `affine · (i, j, k, 1)^T` to obtain `(x', y', z', w)`,
and divide the first three components by `w`. -/
def voxel_to_physical (A : Matrix (Fin 4) (Fin 4) ℚ) (i j k : ℚ) : ℚ × ℚ × ℚ :=
  homogenize (A.mulVec (homogVec i j k))

/-- The notebook's division-free computation `xyz1 = A @ np.array([i, j, k, 1])`
(source cell `xyz1`), returning the full 4-vector. -/
def xyz1 (A : Matrix (Fin 4) (Fin 4) ℚ) (i j k : ℚ) : Fin 4 → ℚ :=
  A.mulVec (homogVec i j k)

/-- The affine of the spec's concrete scenario,
`[[-1,0,0,120],[0,1,0,-120],[0,0,1,-110],[0,0,0,1]]`. -/
def scenarioAffine : Matrix (Fin 4) (Fin 4) ℚ :=
  !![-1, 0, 0, 120; 0, 1, 0, -120; 0, 0, 1, -110; 0, 0, 0, 1]

/-- The error taxonomy of the spec's coordinate mapper. -/
inductive MapError
  | ShapeMismatch
  | SingularMatrix
deriving DecidableEq

/-- The leading 3×3 submatrix of a 4×4 affine. -/
def leading3x3 (A : Matrix (Fin 4) (Fin 4) ℚ) : Matrix (Fin 3) (Fin 3) ℚ :=
  !![A 0 0, A 0 1, A 0 2; A 1 0, A 1 1, A 1 2; A 2 0, A 2 1, A 2 2]

/-- Executable matrix inverse over ℚ via the adjugate; agrees with Mathlib's
`A⁻¹` (see `matInv_eq_inv`). -/
def matInv (A : Matrix (Fin 4) (Fin 4) ℚ) : Matrix (Fin 4) (Fin 4) ℚ :=
  A.det⁻¹ • A.adjugate

theorem matInv_eq_inv (A : Matrix (Fin 4) (Fin 4) ℚ) : matInv A = A⁻¹ := by
  rw [matInv, Matrix.inv_def, Ring.inverse_eq_inv]

/-- Modelled from the spec: `physical_to_voxel(affine, x, y, z)` (absent from
the notebook source): fail with `SingularMatrix` if the leading 3×3 submatrix
has zero determinant, otherwise compute the matrix inverse of `affine` and
apply the same homogeneous multiply-and-homogenize procedure. -/
def physical_to_voxel (A : Matrix (Fin 4) (Fin 4) ℚ) (x y z : ℚ) :
    Except MapError (ℚ × ℚ × ℚ) :=
  if (leading3x3 A).det = 0 then .error .SingularMatrix
  else .ok (homogenize ((matInv A).mulVec (homogVec x y z)))

/-- Read a dynamically-shaped matrix (list of row lists) as a 4×4 matrix;
meaningful only when the shape check has already passed. -/
def listsToMatrix (m : List (List ℚ)) : Matrix (Fin 4) (Fin 4) ℚ :=
  Matrix.of fun i j => ((m.getD i []).getD j 0)

/-- Modelled from the spec: the shape-checking entry point of
`voxel_to_physical` (absent from the notebook source): fail with
`ShapeMismatch` if `affine` is not exactly 4×4 or if the number of coordinate
scalars is not three; otherwise run the transform. -/
def voxel_to_physical_checked (m : List (List ℚ)) (coords : List ℚ) :
    Except MapError (ℚ × ℚ × ℚ) :=
  if m.length = 4 ∧ (∀ r ∈ m, r.length = 4) ∧ coords.length = 3 then
    .ok (voxel_to_physical (listsToMatrix m)
      (coords.getD 0 0) (coords.getD 1 0) (coords.getD 2 0))
  else .error .ShapeMismatch

/-- A 4-D volume as nested lists (axes 0..3 outermost to innermost), the
shallow embedding of the notebook's 4-D numpy array `f_img_data`. -/
abbrev Vol4 : Type := List (List (List (List ℚ)))

/-- A 3-D volume as nested lists, the embedding of `img_data`. -/
abbrev Vol3 : Type := List (List (List ℚ))

/-- Elements of a list at even positions 0, 2, 4, …. -/
def everyOther {α : Type} : List α → List α
  | [] => []
  | [a] => [a]
  | a :: _ :: rest => a :: everyOther rest

/-- Elements of a list at odd positions 1, 3, 5, …, the embedding of the numpy
slice `[1::2]`. -/
def oddSlice {α : Type} (l : List α) : List α := everyOther l.tail

/-- Extract the odd indices along axis 3 of a 4-D volume, the embedding of
`f_img_data[:, :, :, 1::2]`. -/
def extractOddAxis3 (v : Vol4) : Vol4 :=
  v.map (fun p => p.map (fun q => q.map oddSlice))

/-- Index a 3-D volume with a single integer along axis 0, the embedding of
`img_data[i, :, :]`; the result is 2-D (the indexed axis is removed). -/
def sliceAxis0 (v : Vol3) (i : ℕ) : List (List ℚ) := v.getD i []

/-- Shape predicate for 2-D nested lists. -/
def hasShape2 (l : List (List ℚ)) (a b : ℕ) : Prop :=
  l.length = a ∧ ∀ x ∈ l, x.length = b

/-- Shape predicate for 3-D nested lists. -/
def hasShape3 (l : Vol3) (a b c : ℕ) : Prop :=
  l.length = a ∧ ∀ x ∈ l, hasShape2 x b c

/-- Shape predicate for 4-D nested lists. -/
def hasShape4 (l : Vol4) (a b c d : ℕ) : Prop :=
  l.length = a ∧ ∀ x ∈ l, hasShape3 x b c d

theorem everyOther_length {α : Type} : ∀ l : List α,
    (everyOther l).length = (l.length + 1) / 2
  | [] => by simp [everyOther]
  | [_] => by simp [everyOther]
  | _ :: _ :: rest => by
    simp only [everyOther, List.length_cons, everyOther_length rest]
    omega

theorem oddSlice_length {α : Type} (l : List α) :
    (oddSlice l).length = l.length / 2 := by
  rw [oddSlice, everyOther_length]
  cases l <;> simp

/-- The componentwise formula for the transform: shared helper. -/
theorem voxel_to_physical_eq (A : Matrix (Fin 4) (Fin 4) ℚ) (i j k : ℚ) :
    voxel_to_physical A i j k =
      ((A 0 0 * i + A 0 1 * j + A 0 2 * k + A 0 3) /
         (A 3 0 * i + A 3 1 * j + A 3 2 * k + A 3 3),
       (A 1 0 * i + A 1 1 * j + A 1 2 * k + A 1 3) /
         (A 3 0 * i + A 3 1 * j + A 3 2 * k + A 3 3),
       (A 2 0 * i + A 2 1 * j + A 2 2 * k + A 2 3) /
         (A 3 0 * i + A 3 1 * j + A 3 2 * k + A 3 3)) := by
  simp only [voxel_to_physical, homogenize, homogVec, Matrix.mulVec, Matrix.dotProduct,
    Fin.sum_univ_four, Matrix.cons_val_zero, Matrix.cons_val_one, Matrix.head_cons,
    Matrix.cons_val_two, Matrix.cons_val_three, Matrix.vecTail, Matrix.vecHead,
    Function.comp]
  norm_num

/-- Claim C1: for every 4×4 rational affine and all scalars (i, j, k),
`voxel_to_physical` equals the result of building the homogeneous 4-vector
`(i, j, k, 1)`, computing the matrix-vector product `affine · (i, j, k, 1)^T`
componentwise to obtain `(x', y', z', w)`, and dividing the first three
components by `w` — homogenization happens even when the last row is not
`[0, 0, 0, 1]`, and for `w = 1` the division is a no-op. -/
theorem claim_C1_multiply_then_homogenize (A : Matrix (Fin 4) (Fin 4) ℚ) (i j k : ℚ) :
    voxel_to_physical A i j k =
      ((A 0 0 * i + A 0 1 * j + A 0 2 * k + A 0 3) /
         (A 3 0 * i + A 3 1 * j + A 3 2 * k + A 3 3),
       (A 1 0 * i + A 1 1 * j + A 1 2 * k + A 1 3) /
         (A 3 0 * i + A 3 1 * j + A 3 2 * k + A 3 3),
       (A 2 0 * i + A 2 1 * j + A 2 2 * k + A 2 3) /
         (A 3 0 * i + A 3 1 * j + A 3 2 * k + A 3 3)) :=
  voxel_to_physical_eq A i j k

/-- Claim C2: `voxel_to_physical` applied to the affine
`[[-1,0,0,120],[0,1,0,-120],[0,0,1,-110],[0,0,0,1]]` and the voxel coordinate
`(69, 119, 109)` returns exactly the physical coordinate `(51, -1, -1)`. -/
theorem claim_C2_concrete_scenario :
    voxel_to_physical scenarioAffine 69 119 109 = (51, -1, -1) := by
  norm_num [voxel_to_physical, homogenize, homogVec, scenarioAffine, Matrix.mulVec,
    Matrix.dotProduct, Fin.sum_univ_four]

/-- Claim C8: `voxel_to_physical` is deterministic — any two invocations with
equal affine matrices and equal coordinates return equal results (purity and
non-mutation of the inputs are inherent to the functional embedding). -/
theorem claim_C8_deterministic (A B : Matrix (Fin 4) (Fin 4) ℚ) (i j k i2 j2 k2 : ℚ)
    (hAB : A = B) (hi : i = i2) (hj : j = j2) (hk : k = k2) :
    voxel_to_physical A i j k = voxel_to_physical B i2 j2 k2 := by
  rw [hAB, hi, hj, hk]

theorem claim_C8_witness :
    voxel_to_physical scenarioAffine 69 119 109 =
      voxel_to_physical scenarioAffine 69 119 109 :=
  claim_C8_deterministic scenarioAffine scenarioAffine 69 119 109 69 119 109
    rfl rfl rfl rfl

/-- Claim C9: when the affine's last row is `[0, 0, 0, 1]`, the notebook's
division-free computation `xyz1 = A @ (i, j, k, 1)` has fourth component 1 and
its first three components equal the spec's multiply-then-divide output
`voxel_to_physical` — under that bottom-row precondition the two formulations
agree. -/
theorem claim_C9_division_free_refines_spec (A : Matrix (Fin 4) (Fin 4) ℚ)
    (i j k : ℚ) (h : A 3 = ![0, 0, 0, 1]) :
    xyz1 A i j k 3 = 1 ∧
      voxel_to_physical A i j k = (xyz1 A i j k 0, xyz1 A i j k 1, xyz1 A i j k 2) := by
  have hw : A.mulVec (homogVec i j k) 3 = 1 := by
    norm_num [homogVec, Matrix.mulVec, Matrix.dotProduct, Fin.sum_univ_four, h]
  exact ⟨hw, by simp [voxel_to_physical, homogenize, xyz1, hw]⟩

theorem claim_C9_witness :
    xyz1 scenarioAffine 5 6 7 3 = 1 ∧
      voxel_to_physical scenarioAffine 5 6 7 =
        (xyz1 scenarioAffine 5 6 7 0, xyz1 scenarioAffine 5 6 7 1,
          xyz1 scenarioAffine 5 6 7 2) :=
  claim_C9_division_free_refines_spec scenarioAffine 5 6 7
    (by funext i; fin_cases i <;> rfl)

/-- A 4×4 affine whose last row is not `[0, 0, 0, 1]`, so the homogeneous
divisor varies with the input coordinate. -/
def skewAffine : Matrix (Fin 4) (Fin 4) ℚ :=
  !![1, 0, 0, 0; 0, 1, 0, 0; 0, 0, 1, 0; 1, 0, 0, 1]

/-- Claim C7 counterexample: with the affine
`[[1,0,0,0],[0,1,0,0],[0,0,1,0],[1,0,0,1]]` and `i1 = i2 = 1`, `j = k = 0`,
the difference `voxel_to_physical(A, i1+i2, j, k) - voxel_to_physical(A, i2, j, k)`
is `(1/6, 0, 0)` while `voxel_to_physical(A, i1, 0, 0) - voxel_to_physical(A, 0, 0, 0)`
is `(1/2, 0, 0)`: the claimed identity fails for affines whose last row is not
`[0, 0, 0, 1]`. -/
theorem claim_C7_counterexample :
    ¬ (voxel_to_physical skewAffine (1 + 1) 0 0 - voxel_to_physical skewAffine 1 0 0 =
        voxel_to_physical skewAffine 1 0 0 - voxel_to_physical skewAffine 0 0 0) := by
  norm_num [voxel_to_physical, homogenize, homogVec, skewAffine, Matrix.mulVec,
    Matrix.dotProduct, Fin.sum_univ_four, Prod.ext_iff]

/-- Claim C7 (amended): for every 4×4 affine whose last row is `[0, 0, 0, 1]`
and all scalars i1, i2, j, k,
`voxel_to_physical(A, i1+i2, j, k) - voxel_to_physical(A, i2, j, k)` equals
`voxel_to_physical(A, i1, 0, 0) - voxel_to_physical(A, 0, 0, 0)` — the
translation part cancels, so the mapping is affine-linear in the first
coordinate. -/
theorem claim_C7_affine_linearity (A : Matrix (Fin 4) (Fin 4) ℚ) (i1 i2 j k : ℚ)
    (h : A 3 = ![0, 0, 0, 1]) :
    voxel_to_physical A (i1 + i2) j k - voxel_to_physical A i2 j k =
      voxel_to_physical A i1 0 0 - voxel_to_physical A 0 0 0 := by
  have h0 : A 3 0 = 0 := by rw [h]; rfl
  have h1 : A 3 1 = 0 := by rw [h]; rfl
  have h2 : A 3 2 = 0 := by rw [h]; rfl
  have h3 : A 3 3 = 1 := by rw [h]; rfl
  simp only [voxel_to_physical_eq, h0, h1, h2, h3, zero_mul, add_zero,
    zero_add, div_one, Prod.mk_sub_mk, Prod.ext_iff]
  refine ⟨by ring, by ring, by ring⟩

theorem claim_C7_witness :
    voxel_to_physical scenarioAffine (2 + 3) 7 9 - voxel_to_physical scenarioAffine 3 7 9 =
      voxel_to_physical scenarioAffine 2 0 0 - voxel_to_physical scenarioAffine 0 0 0 :=
  claim_C7_affine_linearity scenarioAffine 2 3 7 9 (by funext i; fin_cases i <;> rfl)

/-- A 4×4 affine whose leading 3×3 block has two identical rows, hence zero
determinant. -/
def repeatedRowAffine : Matrix (Fin 4) (Fin 4) ℚ :=
  !![1, 2, 3, 0; 1, 2, 3, 0; 0, 0, 1, 0; 0, 0, 0, 1]

/-- Claim C4: the shape-checked transform fails with `ShapeMismatch` exactly
when the affine is not 4×4 or the coordinate count is not three (so no other
structural constraint is enforced: well-shaped inputs always succeed), and in
particular a 3×3 matrix and a 2-element coordinate tuple are rejected. -/
theorem claim_C4_shape_mismatch (m : List (List ℚ)) (coords : List ℚ) :
    (voxel_to_physical_checked m coords = .error .ShapeMismatch ↔
      ¬ (m.length = 4 ∧ (∀ r ∈ m, r.length = 4) ∧ coords.length = 3)) ∧
    ((m.length = 4 ∧ (∀ r ∈ m, r.length = 4) ∧ coords.length = 3) →
      ∃ p, voxel_to_physical_checked m coords = .ok p) ∧
    voxel_to_physical_checked [[1, 0, 0], [0, 1, 0], [0, 0, 1]] [0, 0, 0] =
      .error .ShapeMismatch ∧
    voxel_to_physical_checked
      [[1, 0, 0, 0], [0, 1, 0, 0], [0, 0, 1, 0], [0, 0, 0, 1]] [0, 0] =
      .error .ShapeMismatch := by
  refine ⟨?_, ?_, ?_, ?_⟩
  · unfold voxel_to_physical_checked
    split
    next hc => exact iff_of_false (by simp) (not_not_intro hc)
    next hc => exact iff_of_true rfl hc
  · intro hc
    exact ⟨_, by rw [voxel_to_physical_checked, if_pos hc]⟩
  · rw [voxel_to_physical_checked, if_neg (by norm_num)]
  · rw [voxel_to_physical_checked, if_neg (by norm_num)]

theorem claim_C4_witness :
    ∃ p, voxel_to_physical_checked
      [[1, 0, 0, 0], [0, 1, 0, 0], [0, 0, 1, 0], [0, 0, 0, 1]] [5, 6, 7] = .ok p :=
  (claim_C4_shape_mismatch _ _).2.1 (by norm_num)

/-- Claim C5: `physical_to_voxel` fails with `SingularMatrix` exactly when the
leading 3×3 submatrix of the affine has zero determinant (for example, a block
with two identical rows); otherwise it applies the matrix inverse of the
affine (the computed `matInv` agrees with Mathlib's `A⁻¹`) with the same
homogeneous multiply-and-homogenize procedure as `voxel_to_physical`. -/
theorem claim_C5_singular_matrix (A : Matrix (Fin 4) (Fin 4) ℚ) (x y z : ℚ) :
    (physical_to_voxel A x y z = .error .SingularMatrix ↔ (leading3x3 A).det = 0) ∧
    matInv A = A⁻¹ ∧
    ((leading3x3 A).det ≠ 0 →
      physical_to_voxel A x y z = .ok (homogenize (A⁻¹.mulVec (homogVec x y z)))) ∧
    physical_to_voxel repeatedRowAffine 0 0 0 = .error .SingularMatrix := by
  refine ⟨?_, matInv_eq_inv A, ?_, ?_⟩
  · unfold physical_to_voxel
    split
    next hdet => simp [hdet]
    next hdet => simp [hdet]
  · intro hdet
    rw [physical_to_voxel, if_neg hdet, matInv_eq_inv]
  · rw [physical_to_voxel, if_pos]
    norm_num [leading3x3, repeatedRowAffine, Matrix.det_fin_three]

theorem claim_C5_witness :
    physical_to_voxel scenarioAffine 51 (-1) (-1) =
      .ok (homogenize (scenarioAffine⁻¹.mulVec (homogVec 51 (-1) (-1)))) :=
  (claim_C5_singular_matrix scenarioAffine 51 (-1) (-1)).2.2.1
    (by norm_num [leading3x3, scenarioAffine, Matrix.det_fin_three])

theorem scenarioAffine_det : scenarioAffine.det = -1 := by
  norm_num [scenarioAffine, Matrix.det_succ_row_zero, Fin.sum_univ_succ]

/-- Round-trip helper over arbitrary rational coordinates: mapping a voxel
coordinate to physical space and back recovers it exactly, for an invertible
affine passing the singularity check, when the homogeneous term is nonzero. -/
theorem roundTrip_aux (A : Matrix (Fin 4) (Fin 4) ℚ) (i j k : ℚ)
    (hblock : (leading3x3 A).det ≠ 0) (hdet : IsUnit A.det)
    (hw : A.mulVec (homogVec i j k) 3 ≠ 0) :
    physical_to_voxel A (voxel_to_physical A i j k).1
      (voxel_to_physical A i j k).2.1 (voxel_to_physical A i j k).2.2 =
      .ok (i, j, k) := by
  have hvp : voxel_to_physical A i j k =
      (A.mulVec (homogVec i j k) 0 / A.mulVec (homogVec i j k) 3,
       A.mulVec (homogVec i j k) 1 / A.mulVec (homogVec i j k) 3,
       A.mulVec (homogVec i j k) 2 / A.mulVec (homogVec i j k) 3) := rfl
  have hvec : homogVec (A.mulVec (homogVec i j k) 0 / A.mulVec (homogVec i j k) 3)
      (A.mulVec (homogVec i j k) 1 / A.mulVec (homogVec i j k) 3)
      (A.mulVec (homogVec i j k) 2 / A.mulVec (homogVec i j k) 3) =
      (A.mulVec (homogVec i j k) 3)⁻¹ • A.mulVec (homogVec i j k) := by
    funext t
    fin_cases t
    · simp [homogVec, div_eq_inv_mul]
    · simp [homogVec, div_eq_inv_mul]
    · simp [homogVec, div_eq_inv_mul]
    · simpa [homogVec] using (inv_mul_cancel₀ hw).symm
  rw [hvp, physical_to_voxel, if_neg hblock, matInv_eq_inv, hvec, Matrix.mulVec_smul,
    Matrix.mulVec_mulVec, Matrix.nonsing_inv_mul A hdet, Matrix.one_mulVec]
  have hne : (A.mulVec (homogVec i j k) 3)⁻¹ ≠ 0 := inv_ne_zero hw
  simp only [homogenize, Pi.smul_apply, smul_eq_mul, homogVec, Matrix.cons_val_zero,
    Matrix.cons_val_one, Matrix.head_cons, Matrix.cons_val_two, Matrix.cons_val_three,
    Matrix.cons_val_succ, Matrix.vecHead, Matrix.vecTail, Function.comp, mul_one,
    Except.ok.injEq, Prod.mk.injEq]
  exact ⟨mul_div_cancel_left₀ i hne, mul_div_cancel_left₀ j hne,
    mul_div_cancel_left₀ k hne⟩

/-- Claim C3: for every invertible 4×4 affine that passes the singularity
check of `physical_to_voxel` and every integer voxel coordinate (i, j, k)
whose homogeneous term is nonzero, applying `voxel_to_physical` and then
`physical_to_voxel` to its result returns (i, j, k) exactly (the round-trip
law, in exact rational arithmetic). -/
theorem claim_C3_round_trip (A : Matrix (Fin 4) (Fin 4) ℚ) (i j k : ℤ)
    (hblock : (leading3x3 A).det ≠ 0) (hdet : IsUnit A.det)
    (hw : A.mulVec (homogVec i j k) 3 ≠ 0) :
    physical_to_voxel A (voxel_to_physical A i j k).1
      (voxel_to_physical A i j k).2.1 (voxel_to_physical A i j k).2.2 =
      .ok ((i : ℚ), (j : ℚ), (k : ℚ)) :=
  roundTrip_aux A i j k hblock hdet hw

theorem claim_C3_witness :
    physical_to_voxel scenarioAffine
      (voxel_to_physical scenarioAffine ((69 : ℤ) : ℚ) ((119 : ℤ) : ℚ) ((109 : ℤ) : ℚ)).1
      (voxel_to_physical scenarioAffine ((69 : ℤ) : ℚ) ((119 : ℤ) : ℚ) ((109 : ℤ) : ℚ)).2.1
      (voxel_to_physical scenarioAffine ((69 : ℤ) : ℚ) ((119 : ℤ) : ℚ) ((109 : ℤ) : ℚ)).2.2 =
      .ok (((69 : ℤ) : ℚ), ((119 : ℤ) : ℚ), ((109 : ℤ) : ℚ)) :=
  claim_C3_round_trip scenarioAffine 69 119 109
    (by norm_num [leading3x3, scenarioAffine, Matrix.det_fin_three])
    (by rw [scenarioAffine_det]; norm_num)
    (by norm_num [homogVec, Matrix.mulVec, Matrix.dotProduct, Fin.sum_univ_four,
      scenarioAffine])

/-- Claim C6: for a 4-D volume of shape (80, 80, 44, 50), extracting all odd
indices (1, 3, 5, …) along axis 3 yields a result of shape (80, 80, 44, 25). -/
theorem claim_C6_odd_axis3_shape (v : Vol4) (h : hasShape4 v 80 80 44 50) :
    hasShape4 (extractOddAxis3 v) 80 80 44 25 := by
  obtain ⟨hlen, hmem⟩ := h
  refine ⟨by simpa [extractOddAxis3] using hlen, ?_⟩
  intro p hp
  obtain ⟨p0, hp0, rfl⟩ := List.mem_map.mp hp
  obtain ⟨h3len, h3mem⟩ := hmem p0 hp0
  refine ⟨by simpa using h3len, ?_⟩
  intro q hq
  obtain ⟨q0, hq0, rfl⟩ := List.mem_map.mp hq
  obtain ⟨h2len, h2mem⟩ := h3mem q0 hq0
  refine ⟨by simpa using h2len, ?_⟩
  intro r hr
  obtain ⟨r0, hr0, rfl⟩ := List.mem_map.mp hr
  rw [oddSlice_length, h2mem r0 hr0]

/-- A concrete constant 4-D volume of shape (80, 80, 44, 50). -/
def constVol4 : Vol4 :=
  List.replicate 80 (List.replicate 80 (List.replicate 44 (List.replicate 50 (0 : ℚ))))

theorem claim_C6_witness : hasShape4 (extractOddAxis3 constVol4) 80 80 44 25 :=
  claim_C6_odd_axis3_shape constVol4
    (by unfold constVol4 hasShape4 hasShape3 hasShape2; simp [List.mem_replicate])

/-- Claim C10: indexing a 3-D volume of shape (240, 240, 220) with the single
integer 119 along axis 0 removes that axis: the result has shape (240, 220)
(not (1, 240, 220)), and its element at (j, k) equals the volume's element at
(119, j, k). -/
theorem claim_C10_integer_index_removes_axis (v : Vol3)
    (h : hasShape3 v 240 240 220) :
    hasShape2 (sliceAxis0 v 119) 240 220 ∧
      ∀ j k : ℕ, ((sliceAxis0 v 119).getD j []).getD k 0 =
        ((v.getD 119 []).getD j []).getD k 0 := by
  obtain ⟨hlen, hmem⟩ := h
  refine ⟨?_, fun j k => rfl⟩
  have h119 : 119 < v.length := by rw [hlen]; norm_num
  have : sliceAxis0 v 119 = v[119] := by
    simp [sliceAxis0, List.getD_eq_getElem?_getD, List.getElem?_eq_getElem h119]
  rw [this]
  exact hmem _ (List.getElem_mem h119)

/-- A concrete constant 3-D volume of shape (240, 240, 220). -/
def constVol3 : Vol3 :=
  List.replicate 240 (List.replicate 240 (List.replicate 220 (0 : ℚ)))

set_option maxRecDepth 8000 in
theorem claim_C10_witness :
    hasShape2 (sliceAxis0 constVol3 119) 240 220 ∧
      ∀ j k : ℕ, ((sliceAxis0 constVol3 119).getD j []).getD k 0 =
        ((constVol3.getD 119 []).getD j []).getD k 0 :=
  claim_C10_integer_index_removes_axis constVol3
    (by unfold constVol3 hasShape3 hasShape2; simp [List.mem_replicate])
